import Mathlib

/-!
Verification development for the RPi FIDO2 security key (`src/security_key.py`).

The Python module keeps a process-wide credential dictionary
`current_keys : rp_id → (cred_id → credential)`, a per-session assertion
cursor (`signatures`, `assertptr`, `assertiontime`), and a CTAP-HID wire
codec working on 64-byte reports.  We embed those pieces shallowly:

* Python `dict`s become association lists with Python-dict semantics
  (`dictFind` = first lookup, `dictSet` = replace-in-place or append,
  preserving insertion order, exactly as CPython dicts behave);
* byte strings become `List Nat`;
* code that can raise an exception (and be caught by the dispatcher's
  `except:` handlers) returns an explicit `exn`-style constructor;
* randomness (`uuid.uuid4().bytes`) and freshly generated private keys are
  passed in as explicit arguments;
* the cryptographic primitives (SHA-256, ECDSA, ML-DSA signing and the COSE
  encodings) are opaque byte blobs that none of the checked claims inspect,
  so the assertion/attestation objects carry only the fields the claims
  talk about (credential descriptor, user entity, algorithm, credential
  count); the omitted fields are noted at each definition.
-/

namespace SecurityKey

/-- Byte strings (`bytes` in Python) as lists of naturals. -/
abbrev Bytes := List Nat

/-! ### Python dictionaries as association lists -/

/-- `d[k]` lookup returning `none` instead of raising `KeyError`.
Python dict keys are unique, so first-match lookup is dict lookup. -/
def dictFind {K V : Type} [BEq K] (k : K) : List (K × V) → Option V
  | [] => none
  | kv :: rest => if kv.1 == k then some kv.2 else dictFind k rest

/-- `d[k] = v` / `d.update({k: v})`: replace the value in place if the key
exists (CPython keeps the key's position), otherwise append the new pair. -/
def dictSet {K V : Type} [BEq K] (k : K) (v : V) : List (K × V) → List (K × V)
  | [] => [(k, v)]
  | kv :: rest => if kv.1 == k then (k, v) :: rest else kv :: dictSet k v rest

/-! ### Key management (`security_key.py`, "Key Management" section) -/

/-- A stored credential: the value of `current_keys[rpid][credid]`.
`publickeyentityId` is the `'id'` field of the stored
`publickeyentity = {'id': credid, 'type': 'public-key'}` (the `'type'`
field is the constant `'public-key'` and is not modelled). -/
structure Cred where
  pvtkey : Bytes
  userid : Bytes
  userentity : Bytes
  algo : Int
  publickeyentityId : Bytes
  deriving DecidableEq

/-- `current_keys[rpid]` : one relying party's credential dict. -/
abbrev RpStore := List (Bytes × Cred)

/-- `current_keys` : the in-memory credential store. -/
abbrev Store := List (String × RpStore)

/-- The ASCII bytes of the literal suffix `'_cryptane'` (9 bytes). -/
def cryptaneSuffix : Bytes := [95, 99, 114, 121, 112, 116, 97, 110, 101]

/-- `uuid.uuid4().bytes + '_cryptane'.encode()` — the freshly minted
credential id, with the 16 random bytes passed in explicitly. -/
def mintCredId (fresh : Bytes) : Bytes := fresh ++ cryptaneSuffix

/-- The reuse scan in `gen_keys`: `for key in current_rp: if
cred['userid']==userid: credid=key` keeps the LAST matching key. -/
def lastUserKey (rp : RpStore) (userid : Bytes) : Option Bytes :=
  ((rp.filter (fun kc => kc.2.userid == userid)).getLast?).map Prod.fst

/-- `gen_keys(rpid, userid, userentity, algo)`.  The random 16 bytes of the
minted id (`fresh`) and the generated private key are explicit inputs; the
generated public key and the on-disk rewrite of the store are omitted (the
function returns the updated in-memory `current_keys`). -/
def gen_keys (store : Store) (rpid : String) (userid userentity : Bytes) (algo : Int)
    (fresh pvtkey : Bytes) : Bytes × Store :=
  let rp := (dictFind rpid store).getD []
  let credid := match lastUserKey rp userid with
    | some k => k
    | none => mintCredId fresh
  let cred : Cred := { pvtkey := pvtkey, userid := userid, userentity := userentity,
                       algo := algo, publickeyentityId := credid }
  (credid, dictSet rpid (dictSet credid cred rp) store)

/-- `check_key_exists(rpid, cred_id)`. -/
def check_key_exists (store : Store) (rpid : String) (cred_id : Bytes) : Bool :=
  match dictFind rpid store with
  | none => false
  | some rp => (dictFind cred_id rp).isSome

/-- `check_key_entity_exists(rpid, entity)`; an entity is represented by
its `'id'` field. -/
def check_key_entity_exists (store : Store) (rpid : String) (entityId : Bytes) : Bool :=
  check_key_exists store rpid entityId

/-- `get_key(rpid, cred_id)`. -/
def get_key (store : Store) (rpid : String) (cred_id : Bytes) : Option Cred :=
  if check_key_exists store rpid cred_id then
    (dictFind rpid store).getD [] |> dictFind cred_id
  else none

/-- `get_all_keys(rpid)`: the rp's dict, or `None` when the rp is absent. -/
def get_all_keys (store : Store) (rpid : String) : Option RpStore :=
  dictFind rpid store

/-- `get_algo(pubkeycredparams)`: first `alg` in `[-49, -48, -7]`, default `-7`.
A parameter is represented by its `'alg'` field. -/
def get_algo (params : List Int) : Int :=
  match params.find? (fun a => a == -49 || a == -48 || a == -7) with
  | some a => a
  | none => -7

/-! ### Store convenience definitions used by the claims -/

/-- The relying party's credential dict (empty when the rp is absent). -/
def rpCreds (store : Store) (rpid : String) : RpStore :=
  (dictFind rpid store).getD []

/-- The cred_ids stored under `rpid` whose credential has user handle `u`. -/
def usersCreds (store : Store) (rpid : String) (u : Bytes) : List Bytes :=
  ((rpCreds store rpid).filter (fun kc => kc.2.userid == u)).map Prod.fst

/-- Dict well-formedness: keys are unique (true of every Python dict). -/
def keysNodup (rp : RpStore) : Prop := (rp.map Prod.fst).Nodup

/-! ### Basic dict lemmas -/

theorem dictFind_dictSet_self {K V : Type} [BEq K] [LawfulBEq K] (k : K) (v : V)
    (d : List (K × V)) : dictFind k (dictSet k v d) = some v := by
  induction d with
  | nil => simp [dictSet, dictFind]
  | cons kv rest ih =>
      by_cases h : (kv.1 == k) = true
      · simp [dictSet, h, dictFind]
      · simp [dictSet, h, dictFind, ih]

theorem mem_dictSet {K V : Type} [BEq K] (k : K) (v : V) (d : List (K × V))
    (kv : K × V) (h : kv ∈ dictSet k v d) : kv = (k, v) ∨ kv ∈ d := by
  induction d with
  | nil => simp [dictSet] at h; simp [h]
  | cons hd rest ih =>
      by_cases hk : (hd.1 == k) = true
      · rw [show dictSet k v (hd :: rest) = (k, v) :: rest from by simp [dictSet, hk]] at h
        rcases List.mem_cons.mp h with h | h
        · exact Or.inl h
        · exact Or.inr (List.mem_cons_of_mem _ h)
      · rw [show dictSet k v (hd :: rest) = hd :: dictSet k v rest from by simp [dictSet, hk]] at h
        rcases List.mem_cons.mp h with h | h
        · exact Or.inr (by simp [h])
        · rcases ih h with h1 | h1
          · exact Or.inl h1
          · exact Or.inr (List.mem_cons_of_mem _ h1)

theorem keys_dictSet_subset {K V : Type} [BEq K] (k : K) (v : V) (d : List (K × V))
    (x : K) (h : x ∈ (dictSet k v d).map Prod.fst) :
    x = k ∨ x ∈ d.map Prod.fst := by
  rcases List.mem_map.mp h with ⟨kv, hmem, hx⟩
  rcases mem_dictSet k v d kv hmem with h1 | h1
  · left; rw [← hx, h1]
  · right; exact List.mem_map.mpr ⟨kv, h1, hx⟩

theorem keysNodup_dictSet (k : Bytes) (v : Cred) (d : RpStore)
    (h : keysNodup d) : keysNodup (dictSet k v d) := by
  unfold keysNodup at h ⊢
  induction d with
  | nil => simp [dictSet]
  | cons hd rest ih =>
      rcases List.nodup_cons.mp h with ⟨hnotin, hrest⟩
      by_cases hk : (hd.1 == k) = true
      · simp only [dictSet, if_pos hk, List.map_cons]
        refine List.nodup_cons.mpr ⟨?_, hrest⟩
        rw [← eq_of_beq hk]
        exact hnotin
      · simp only [dictSet, if_neg hk, List.map_cons]
        refine List.nodup_cons.mpr ⟨?_, ih hrest⟩
        intro hmem
        rcases keys_dictSet_subset k v rest hd.1 hmem with h1 | h1
        · exact hk (beq_iff_eq.mpr h1)
        · exact hnotin h1

/-! ### Store lemmas for the upsert claim -/

theorem countP_le_one_lastUserKey (rp : RpStore) (u : Bytes)
    (hcount : rp.countP (fun kc => kc.2.userid == u) ≤ 1)
    (kc : Bytes × Cred) (hm : kc ∈ rp) (hu : (kc.2.userid == u) = true) :
    lastUserKey rp u = some kc.1 := by
  have hmem : kc ∈ rp.filter (fun kc => kc.2.userid == u) := List.mem_filter.mpr ⟨hm, hu⟩
  have hlen1 : (rp.filter (fun kc => kc.2.userid == u)).length ≤ 1 := by
    rw [← List.countP_eq_length_filter]
    exact hcount
  have hpos : 0 < (rp.filter (fun kc => kc.2.userid == u)).length :=
    List.length_pos_of_mem hmem
  have hlen : (rp.filter (fun kc => kc.2.userid == u)).length = 1 :=
    le_antisymm hlen1 hpos
  rcases List.length_eq_one.mp hlen with ⟨a, ha⟩
  rw [ha] at hmem
  have hkc : kc = a := by simpa using hmem
  unfold lastUserKey
  rw [ha, ← hkc]
  rfl

theorem lastUserKey_none (rp : RpStore) (u : Bytes) (h : lastUserKey rp u = none)
    (kc : Bytes × Cred) (hm : kc ∈ rp) : ¬ ((kc.2.userid == u) = true) := by
  intro hmatch
  have hmem : kc ∈ rp.filter (fun kc => kc.2.userid == u) := List.mem_filter.mpr ⟨hm, hmatch⟩
  unfold lastUserKey at h
  have hnone := Option.map_eq_none'.mp h
  have hs : (rp.filter (fun kc => kc.2.userid == u)).getLast?.isSome :=
    List.getLast?_isSome.mpr (List.ne_nil_of_mem hmem)
  rw [hnone] at hs
  simp at hs

theorem filter_dictSet_single (rp : RpStore) (k : Bytes) (v : Cred) (u : Bytes)
    (hnd : keysNodup rp) (hv : (v.userid == u) = true)
    (hall : ∀ kc ∈ rp, (kc.2.userid == u) = true → kc.1 = k) :
    (dictSet k v rp).filter (fun kc => kc.2.userid == u) = [(k, v)] := by
  induction rp with
  | nil => simp [dictSet, hv]
  | cons hd rest ih =>
      unfold keysNodup at hnd
      rw [List.map_cons] at hnd
      rcases List.nodup_cons.mp hnd with ⟨hnotin, hrest⟩
      by_cases hk : (hd.1 == k) = true
      · rw [show dictSet k v (hd :: rest) = (k, v) :: rest from by simp [dictSet, hk]]
        have hrestnil : rest.filter (fun kc => kc.2.userid == u) = [] := by
          rw [List.filter_eq_nil_iff]
          intro kc hkc hmatch
          have hkck : kc.1 = k := hall kc (List.mem_cons_of_mem _ hkc) hmatch
          apply hnotin
          rw [eq_of_beq hk, ← hkck]
          exact List.mem_map.mpr ⟨kc, hkc, rfl⟩
        simp only [List.filter_cons]
        simp [hv, hrestnil]
      · rw [show dictSet k v (hd :: rest) = hd :: dictSet k v rest from by simp [dictSet, hk]]
        have hhd : ¬ ((hd.2.userid == u) = true) := by
          intro hmatch
          exact hk (beq_iff_eq.mpr (hall hd (List.mem_cons_self _ _) hmatch))
        simp only [List.filter_cons, hhd]
        rw [if_neg (by simp)]
        exact ih hrest (fun kc hkc hm => hall kc (List.mem_cons_of_mem _ hkc) hm)

/-- One `gen_keys` call on a well-formed relying-party dict (unique keys,
at most one credential for the user handle) leaves the dict well-formed and
with exactly one credential for that user handle, stored under the returned
cred_id; moreover every pre-existing credential for the user already had
that cred_id (this is the in-place upsert of `gen_keys`). -/
theorem gen_keys_spec (s : Store) (rp : String) (u ue : Bytes) (a : Int) (f q : Bytes)
    (hnd : keysNodup (rpCreds s rp))
    (hcount : (rpCreds s rp).countP (fun kc => kc.2.userid == u) ≤ 1) :
    keysNodup (rpCreds (gen_keys s rp u ue a f q).2 rp) ∧
    (rpCreds (gen_keys s rp u ue a f q).2 rp).filter (fun kc => kc.2.userid == u)
      = [((gen_keys s rp u ue a f q).1,
          { pvtkey := q, userid := u, userentity := ue, algo := a,
            publickeyentityId := (gen_keys s rp u ue a f q).1 })] := by
  have hall : ∀ kc ∈ rpCreds s rp, (kc.2.userid == u) = true →
      kc.1 = (gen_keys s rp u ue a f q).1 := by
    intro kc hm hu
    have hlast := countP_le_one_lastUserKey (rpCreds s rp) u hcount kc hm hu
    simp only [gen_keys]
    rw [show (dictFind rp s).getD [] = rpCreds s rp from rfl, hlast]
  have hstore : rpCreds (gen_keys s rp u ue a f q).2 rp
      = dictSet (gen_keys s rp u ue a f q).1
          { pvtkey := q, userid := u, userentity := ue, algo := a,
            publickeyentityId := (gen_keys s rp u ue a f q).1 } (rpCreds s rp) := by
    simp only [gen_keys, rpCreds]
    rw [dictFind_dictSet_self]
    rfl
  constructor
  · rw [hstore]
    exact keysNodup_dictSet _ _ _ hnd
  · rw [hstore]
    exact filter_dictSet_single _ _ _ _ hnd (by simp) hall

/-! ### Claim C5: the shape of a freshly minted credential id -/

/-- C5 counterexample: the claim says a newly minted credential id is
24 bytes long, but `uuid.uuid4().bytes` (16 bytes) followed by the 9-byte
suffix `'_cryptane'` is 25 bytes long; evaluated here for the concrete
registration of `example.com` with 16 zero random bytes. -/
theorem C5_minted_id_not_24_bytes :
    ¬ ((gen_keys [] "example.com" [1] [2] (-7) (List.replicate 16 0) [5]).1.length = 24) := by
  decide

/-- C5 (amended): every newly minted credential identifier — the id
`gen_keys` produces when no stored credential of the relying party has the
requested user handle — is the 16 random bytes followed by the literal
9-byte ASCII suffix `'_cryptane'`, 25 bytes in total. -/
theorem C5_minted_id_shape (store : Store) (rpid : String) (u ue : Bytes) (a : Int)
    (fresh pvtkey : Bytes) (hf : fresh.length = 16)
    (hnew : lastUserKey (rpCreds store rpid) u = none) :
    (gen_keys store rpid u ue a fresh pvtkey).1 = fresh ++ cryptaneSuffix ∧
    (gen_keys store rpid u ue a fresh pvtkey).1.length = 25 := by
  have hgen : (gen_keys store rpid u ue a fresh pvtkey).1 = fresh ++ cryptaneSuffix := by
    simp only [gen_keys, mintCredId]
    rw [show ((dictFind rpid store).getD []) = rpCreds store rpid from rfl, hnew]
  refine ⟨hgen, ?_⟩
  rw [hgen]
  simp [cryptaneSuffix, hf]

/-- C5 witness: the amended statement evaluated at a concrete input. -/
theorem C5_minted_id_shape_witness :
    (List.replicate 16 (0 : Nat)).length = 16 ∧
    lastUserKey (rpCreds [] "example.com") [1] = none ∧
    (gen_keys [] "example.com" [1] [2] (-7) (List.replicate 16 0) [5]).1 =
      List.replicate 16 0 ++ cryptaneSuffix ∧
    (gen_keys [] "example.com" [1] [2] (-7) (List.replicate 16 0) [5]).1.length = 25 := by
  refine ⟨by decide, by decide, ?_⟩
  exact C5_minted_id_shape [] "example.com" [1] [2] (-7) (List.replicate 16 0) [5]
    (by decide) (by decide)

/-! ### `authenticatorMakeCredential` -/

/-- The decoded CBOR request map of `authenticatorMakeCredential`:
`1: clientDataHash`, `2: rp` (its `'id'`), `3: user` (its `'id'` plus the
full entity as an opaque blob), `4: pubKeyCredParams` (their `'alg'`
fields), optional `5: excludeList` (each entry's `'id'`). -/
structure MCRequest where
  clientDataHash : Bytes
  rpId : String
  userId : Bytes
  userEntity : Bytes
  pubKeyCredParams : List Int
  excludeList : Option (List Bytes)
  deriving DecidableEq

/-- Result of `authenticatorMakeCredential`: the updated in-memory store,
the CTAP2 status byte, and the `credentialId` that is embedded in the
attested-credential data of the returned attestation object (`[]` on the
error path, where Python returns `('', status)`).  The other fields of the
attestation object (authData hash prefix, flags, COSE key, signature) are
cryptographic blobs no claim inspects, so they are not modelled. -/
structure MCResult where
  store : Store
  status : Nat
  credId : Bytes
  deriving DecidableEq

/-- `authenticatorMakeCredential(channel, payload)`.
The source first runs `wait_user_input(channel)` but DISCARDS its Boolean
result (`upGranted` here), so the outcome below cannot depend on it; it
then checks the excludeList and finally registers via `gen_keys`. -/
def authenticatorMakeCredential (upGranted : Bool) (store : Store) (req : MCRequest)
    (fresh pvtkey : Bytes) : MCResult :=
  let excluded := match req.excludeList with
    | some ex => ex.any (fun e => check_key_entity_exists store req.rpId e)
    | none => false
  if excluded then { store := store, status := 0x19, credId := [] }
  else
    let r := gen_keys store req.rpId req.userId req.userEntity
      (get_algo req.pubKeyCredParams) fresh pvtkey
  { store := r.2, status := 0, credId := r.1 }

/-- The cred_id returned by `gen_keys`, written out. -/
theorem gen_keys_fst (s : Store) (rp : String) (u ue : Bytes) (a : Int) (f q : Bytes) :
    (gen_keys s rp u ue a f q).1 = match lastUserKey (rpCreds s rp) u with
      | some k => k
      | none => mintCredId f := rfl

/-- A successful `authenticatorMakeCredential` (status 0) is exactly a
`gen_keys` registration. -/
theorem makeCredential_success (up : Bool) (store : Store) (req : MCRequest)
    (fresh pvtkey : Bytes)
    (h : (authenticatorMakeCredential up store req fresh pvtkey).status = 0) :
    authenticatorMakeCredential up store req fresh pvtkey =
      { store := (gen_keys store req.rpId req.userId req.userEntity
                    (get_algo req.pubKeyCredParams) fresh pvtkey).2,
        status := 0,
        credId := (gen_keys store req.rpId req.userId req.userEntity
                    (get_algo req.pubKeyCredParams) fresh pvtkey).1 } := by
  unfold authenticatorMakeCredential at h ⊢
  by_cases hx : (match req.excludeList with
    | some ex => ex.any (fun e => check_key_entity_exists store req.rpId e)
    | none => false) = true
  · rw [if_pos hx] at h
    simp at h
  · rw [if_neg hx] at h ⊢

/-! ### Claim C2: CANCEL during MakeCredential -/

/-- A concrete well-formed MakeCredential request on an empty store. -/
def reqC2 : MCRequest :=
  { clientDataHash := [1], rpId := "example.com", userId := [7],
    userEntity := [3], pubKeyCredParams := [-7], excludeList := none }

/-- C2 evidence: when the user-presence wait ends with the flag NOT set
(`upGranted = false`, i.e. a CANCEL arrived instead of a button press),
`authenticatorMakeCredential` nevertheless returns status 0 — not 0x2D —
and writes the credential into the store; indeed the whole result is
identical to the `upGranted = true` run, because the source discards the
return value of `wait_user_input`. -/
theorem C2_cancelled_makeCredential_still_registers :
    (authenticatorMakeCredential false [] reqC2 (List.replicate 16 0) [1]).status = 0 ∧
    (authenticatorMakeCredential false [] reqC2 (List.replicate 16 0) [1]).store ≠ [] ∧
    authenticatorMakeCredential false [] reqC2 (List.replicate 16 0) [1] =
      authenticatorMakeCredential true [] reqC2 (List.replicate 16 0) [1] := by
  decide

/-! ### Claim C9: excludeList hit -/

/-- C9: whenever the request carries an excludeList and some entry's id is
already stored under `rp.id`, the command returns status 0x19 and leaves
the store exactly as it was (the excludeList scan runs before `gen_keys`). -/
theorem C9_excludeList_hit (up : Bool) (store : Store) (req : MCRequest)
    (fresh pvtkey : Bytes) (ex : List Bytes) (hex : req.excludeList = some ex)
    (hhit : ∃ e ∈ ex, check_key_entity_exists store req.rpId e = true) :
    authenticatorMakeCredential up store req fresh pvtkey =
      { store := store, status := 0x19, credId := [] } := by
  unfold authenticatorMakeCredential
  rw [hex]
  have hany : ex.any (fun e => check_key_entity_exists store req.rpId e) = true := by
    rcases hhit with ⟨e, he, hc⟩
    exact List.any_eq_true.mpr ⟨e, he, hc⟩
  simp [hany]

/-- A store holding one credential for `example.com`. -/
def exCredId : Bytes := mintCredId (List.replicate 16 1)

/-- The stored credential of `exStore`. -/
def exCred : Cred :=
  { pvtkey := [1], userid := [7], userentity := [3], algo := -7,
    publickeyentityId := exCredId }

/-- One registered credential under `example.com`. -/
def exStore : Store := [("example.com", [(exCredId, exCred)])]

/-- A MakeCredential request whose excludeList names `exCredId`. -/
def reqC9 : MCRequest :=
  { clientDataHash := [1], rpId := "example.com", userId := [8],
    userEntity := [4], pubKeyCredParams := [-7], excludeList := some [exCredId] }

/-- C9 witness: the theorem applied to a store that already holds the
excluded credential. -/
theorem C9_excludeList_hit_witness :
    reqC9.excludeList = some [exCredId] ∧
    (∃ e ∈ [exCredId], check_key_entity_exists exStore reqC9.rpId e = true) ∧
    authenticatorMakeCredential true exStore reqC9 (List.replicate 16 2) [2] =
      { store := exStore, status := 0x19, credId := [] } :=
  ⟨rfl, by decide,
    C9_excludeList_hit true exStore reqC9 (List.replicate 16 2) [2] [exCredId] rfl (by decide)⟩

/-! ### Claim C8: registration upserts in place -/

/-- C8: starting from any store whose dict for `rp` is well-formed (unique
keys, at most one credential per user handle — the invariant every
reachable store satisfies), two consecutive successful MakeCredential
calls with the same `(rp.id, user.id)` leave exactly one credential for
that user under that rp, whose cred_id is the one minted by the first
call; the second call returns the same credentialId. -/
theorem C8_makeCredential_upsert (s0 : Store) (rp : String) (u : Bytes) (up1 up2 : Bool)
    (r1 r2 : MCRequest) (f1 f2 q1 q2 : Bytes)
    (hr1 : r1.rpId = rp) (hr2 : r2.rpId = rp)
    (hu1 : r1.userId = u) (hu2 : r2.userId = u)
    (hnd : keysNodup (rpCreds s0 rp))
    (hcount : (rpCreds s0 rp).countP (fun kc => kc.2.userid == u) ≤ 1)
    (hok1 : (authenticatorMakeCredential up1 s0 r1 f1 q1).status = 0)
    (hok2 : (authenticatorMakeCredential up2
              (authenticatorMakeCredential up1 s0 r1 f1 q1).store r2 f2 q2).status = 0) :
    (authenticatorMakeCredential up2
        (authenticatorMakeCredential up1 s0 r1 f1 q1).store r2 f2 q2).credId
      = (authenticatorMakeCredential up1 s0 r1 f1 q1).credId ∧
    usersCreds (authenticatorMakeCredential up2
        (authenticatorMakeCredential up1 s0 r1 f1 q1).store r2 f2 q2).store rp u
      = [(authenticatorMakeCredential up1 s0 r1 f1 q1).credId] := by
  have e1 := makeCredential_success up1 s0 r1 f1 q1 hok1
  rw [hr1, hu1] at e1
  have e2 := makeCredential_success up2 (authenticatorMakeCredential up1 s0 r1 f1 q1).store
    r2 f2 q2 hok2
  rw [hr2, hu2] at e2
  rw [e1] at e2 ⊢
  rw [e2]
  simp only
  -- notation for the two gen_keys calls
  have spec1 := gen_keys_spec s0 rp u r1.userEntity (get_algo r1.pubKeyCredParams) f1 q1
    hnd hcount
  rcases spec1 with ⟨hnd1, hfil1⟩
  have hcount1 : (rpCreds (gen_keys s0 rp u r1.userEntity
      (get_algo r1.pubKeyCredParams) f1 q1).2 rp).countP (fun kc => kc.2.userid == u) ≤ 1 := by
    rw [List.countP_eq_length_filter, hfil1]
    simp
  have spec2 := gen_keys_spec (gen_keys s0 rp u r1.userEntity
      (get_algo r1.pubKeyCredParams) f1 q1).2 rp u r2.userEntity
      (get_algo r2.pubKeyCredParams) f2 q2 hnd1 hcount1
  rcases spec2 with ⟨hnd2, hfil2⟩
  -- the second call reuses the first call's cred_id
  have hlast : lastUserKey (rpCreds (gen_keys s0 rp u r1.userEntity
      (get_algo r1.pubKeyCredParams) f1 q1).2 rp) u
      = some (gen_keys s0 rp u r1.userEntity (get_algo r1.pubKeyCredParams) f1 q1).1 := by
    unfold lastUserKey
    rw [hfil1]
    rfl
  have hc2 : (gen_keys (gen_keys s0 rp u r1.userEntity
      (get_algo r1.pubKeyCredParams) f1 q1).2 rp u r2.userEntity
      (get_algo r2.pubKeyCredParams) f2 q2).1
      = (gen_keys s0 rp u r1.userEntity (get_algo r1.pubKeyCredParams) f1 q1).1 := by
    rw [gen_keys_fst, hlast]
  refine ⟨hc2, ?_⟩
  unfold usersCreds
  rw [hfil2, hc2]
  rfl

/-- C8 witness: two consecutive registrations with the same rp and user on
the empty store. -/
theorem C8_makeCredential_upsert_witness :
    (authenticatorMakeCredential true [] reqC2 (List.replicate 16 4) [1]).status = 0 ∧
    (authenticatorMakeCredential true
      (authenticatorMakeCredential true [] reqC2 (List.replicate 16 4) [1]).store reqC2
      (List.replicate 16 5) [2]).status = 0 ∧
    (authenticatorMakeCredential true
        (authenticatorMakeCredential true [] reqC2 (List.replicate 16 4) [1]).store reqC2
        (List.replicate 16 5) [2]).credId
      = (authenticatorMakeCredential true [] reqC2 (List.replicate 16 4) [1]).credId ∧
    usersCreds (authenticatorMakeCredential true
        (authenticatorMakeCredential true [] reqC2 (List.replicate 16 4) [1]).store reqC2
        (List.replicate 16 5) [2]).store "example.com" [7]
      = [(authenticatorMakeCredential true [] reqC2 (List.replicate 16 4) [1]).credId] := by
  refine ⟨by decide, by decide, ?_⟩
  exact C8_makeCredential_upsert [] "example.com" [7] true true reqC2 reqC2
    (List.replicate 16 4) (List.replicate 16 5) [1] [2] rfl rfl rfl rfl
    (by simp [keysNodup, rpCreds, dictFind]) (by decide) (by decide) (by decide)

/-! ### `authenticatorGetAssertion` / `authenticatorGetNextAssertion` /
`authenticatorReset` -/

/-- One prepared assertion object, as appended to the global `signatures`
list.  Modelled fields: `1` (the credential descriptor, by its `'id'`),
`4` (the user entity blob), the credential's algorithm, and the optional
`5: numberOfCredentials` carried only by the first object.  Fields `2`
(authData) and `3` (signature) are cryptographic byte blobs that no claim
inspects and are not modelled. -/
structure AssertObj where
  credId : Bytes
  userentity : Bytes
  algo : Int
  numberOfCredentials : Option Nat
  deriving DecidableEq

/-- The global assertion cursor: `signatures`, `assertptr`,
`assertiontime` (seconds). -/
structure Cursor where
  signatures : List AssertObj
  assertptr : Nat
  assertiontime : Int
  deriving DecidableEq

/-- Outcome of a CTAP2 handler: `ok` (status 0 with a response object),
`err code` (Python `return '', code`), or `exn` — a Python exception that
escapes the handler and is caught in `process_packet`, which then sends a
CTAP-HID ERROR frame (code 0x7f) instead of a CTAP2 status. -/
inductive CtapOut where
  | ok (a : AssertObj)
  | err (code : Nat)
  | exn
  deriving DecidableEq

/-- Fallback credential for the (provably unreachable) `get_key` miss on a
resolved candidate; see `getAssertionFinish`. -/
def defaultCred : Cred :=
  { pvtkey := [], userid := [], userentity := [], algo := -7, publickeyentityId := [] }

/-- The tail of `authenticatorGetAssertion` once the candidate cred_ids
are resolved: empty set → status 0x2E with cursor cleared; otherwise build
one assertion object per candidate (the first carries
`numberOfCredentials`), set `assertptr = 1`, stamp the time, and return
the first object.  `get_key` cannot miss here: candidates either come from
the store itself or were filtered by `check_key_entity_exists`. -/
def getAssertionFinish (store : Store) (now : Int) (rpid : String)
    (cands : List Bytes) : Cursor × CtapOut :=
  if cands.length = 0 then
    ({ signatures := [], assertptr := 0, assertiontime := 0 }, CtapOut.err 0x2e)
  else
    let objs := cands.enum.map (fun ic =>
      let key := (get_key store rpid ic.2).getD defaultCred
      { credId := ic.2, userentity := key.userentity, algo := key.algo,
        numberOfCredentials := if ic.1 = 0 then some cands.length else none : AssertObj })
    ({ signatures := objs, assertptr := 1, assertiontime := now },
      CtapOut.ok (objs.headD
        { credId := [], userentity := [], algo := -7, numberOfCredentials := none }))

/-- `authenticatorGetAssertion(channel, payload)`.
`allowList = []` models both an absent key `3` and an empty list (the
source initialises `allowList=[]` and overwrites it only if key `3` is
present).  When the allowList is empty the source iterates over
`get_all_keys(rpid)`, which is `None` for an unknown rp — the `for` loop
then raises `TypeError`, modelled as `CtapOut.exn`.  The global
`signatures` list is cleared on entry; `clientDataHash` only feeds the
signature blob, which is not modelled.  The final `wait_user_input` call's
result is discarded by the source. -/
def authenticatorGetAssertion (store : Store) (cur : Cursor) (now : Int) (rpid : String)
    (clientDataHash : Bytes) (allowList : List Bytes) : Cursor × CtapOut :=
  let _ := clientDataHash
  if allowList.isEmpty then
    match get_all_keys store rpid with
    | none => ({ cur with signatures := [] }, CtapOut.exn)
    | some rp => getAssertionFinish store now rpid (rp.map (fun kc => kc.2.publickeyentityId))
  else
    getAssertionFinish store now rpid
      (allowList.filter (fun c => check_key_entity_exists store rpid c))

/-- `authenticatorGetNextAssertion()`.  The guard uses `assertptr >
len(signatures)`; when `assertptr = len(signatures)` the guard passes and
`signatures[assertptr]` raises `IndexError` — after `assertiontime` was
already refreshed — so the handler ends in `CtapOut.exn`. -/
def authenticatorGetNextAssertion (cur : Cursor) (now : Int) : Cursor × CtapOut :=
  if cur.assertptr = 0 ∨ cur.signatures.length < cur.assertptr
      ∨ 30 < now - cur.assertiontime then
    ({ signatures := [], assertptr := 0, assertiontime := 0 }, CtapOut.err 0x30)
  else
    match cur.signatures[cur.assertptr]? with
    | some s => ({ cur with assertptr := cur.assertptr + 1, assertiontime := now },
                  CtapOut.ok s)
    | none => ({ cur with assertiontime := now }, CtapOut.exn)

/-- `authenticatorReset()`.  `os.remove(file_path)` deletes the on-disk
key file and `full_data={}` merely rebinds a local name; the in-memory
`current_keys` that every other handler reads is left untouched, so the
function returns the store unchanged together with status 0. -/
def authenticatorReset (keys : Store) : Store × Nat :=
  (keys, 0)

/-- The empty assertion cursor (process start). -/
def emptyCursor : Cursor := { signatures := [], assertptr := 0, assertiontime := 0 }

/-- The single assertion object produced for `exStore`. -/
def exAssertObj : AssertObj :=
  { credId := exCredId, userentity := [3], algo := -7, numberOfCredentials := some 1 }

/-! ### Claim C1: GetNextAssertion cursor exhaustion -/

/-- C1 evidence: with one stored credential, `GetAssertion` produces
`N = 1` assertions and sets `assertptr = 1`; the very next
`GetNextAssertion` (the `N`-th) passes the `assertptr > len(signatures)`
guard — the source tests `>` where exhaustion is `>=` — and evaluates
`signatures[1]` on a 1-element list, raising `IndexError` (surfaced as a
CTAP-HID 0x7f ERROR frame), instead of returning status 0x30. -/
theorem C1_getNextAssertion_exhaustion_raises :
    (authenticatorGetAssertion exStore emptyCursor 100 "example.com" [9] []).1.signatures.length = 1 ∧
    (authenticatorGetAssertion exStore emptyCursor 100 "example.com" [9] []).1.assertptr = 1 ∧
    (authenticatorGetAssertion exStore emptyCursor 100 "example.com" [9] []).2
      = CtapOut.ok exAssertObj ∧
    (authenticatorGetNextAssertion
        (authenticatorGetAssertion exStore emptyCursor 100 "example.com" [9] []).1 100).2
      = CtapOut.exn := by
  decide

/-! ### Claim C3: Reset -/

/-- C3 evidence: `authenticatorReset` returns status 0 but hands back the
in-memory store unchanged, and a `GetAssertion` for `example.com` issued
right after the reset still succeeds (status 0 with an assertion) instead
of returning 0x2E. -/
theorem C3_reset_leaves_memory_store :
    authenticatorReset exStore = (exStore, 0) ∧
    (authenticatorGetAssertion (authenticatorReset exStore).1 emptyCursor 100
        "example.com" [9] []).2 = CtapOut.ok exAssertObj := by
  decide

/-! ### Claim C4: empty candidate set -/

/-- C4 evidence: with no credential stored under the rp and no allowList,
`get_all_keys` returns `None` and the `for` loop raises `TypeError`
(CTAP-HID error 0x7f), instead of the claimed status 0x2E; by contrast an
allowList that intersects the store in nothing does produce 0x2E. -/
theorem C4_no_rp_entry_raises_not_0x2e :
    (authenticatorGetAssertion [] emptyCursor 0 "example.com" [9] []).2 = CtapOut.exn ∧
    (authenticatorGetAssertion exStore emptyCursor 0 "other.example" [9] [[9, 9]]).2
      = CtapOut.err 0x2e := by
  decide

/-! ### Wire codec (`security_key.py`, "Low Level Implementation") -/

/-- `n.to_bytes(2, 'big')` for `n < 65536`. -/
def toBytes2BE (n : Nat) : Bytes := [n / 256 % 256, n % 256]

/-- `calc_num_packets(bcnt)`.  Python clamps `bcnt - 57` at zero before
dividing; natural subtraction does the same. -/
def calc_num_packets (bcnt : Nat) : Nat :=
  let b := bcnt - 57
  let np := 1 + b / 59
  if b % 59 > 0 then np + 1 else np

/-- Split into 59-byte chunks; the fuel argument (instantiated with the
list length) only makes the recursion structural. -/
def chunks59Fuel : Nat → Bytes → List Bytes
  | _, [] => []
  | 0, l => [l]
  | n + 1, b :: t => ((b :: t).take 59) :: chunks59Fuel n ((b :: t).drop 59)

/-- The continuation-payload chunks of the send loop
(`payload[:59]`, `payload[59:]`, ...). -/
def chunks59 (l : Bytes) : List Bytes := chunks59Fuel l.length l

/-- Right-pad with zero bytes to length `n` (`ljust`-style). -/
def padTo (n : Nat) (l : Bytes) : Bytes := l ++ List.replicate (n - l.length) 0

/-- Pad only the final chunk (`packet_list[last_pack]`) to size `n`. -/
def padLast (n : Nat) : List Bytes → List Bytes
  | [] => []
  | [c] => [padTo n c]
  | c :: c2 :: cs => c :: (padLast n (c2 :: cs))

/-- The continuation frames of the send loop: frame `i` is
`channel ∥ seq ∥ chunk` with `seq` starting at 0
(`packet + (i-1).to_bytes(1,'big') + packet_list[i]`). -/
def contFrames (channel : Bytes) : Nat → List Bytes → List Bytes
  | _, [] => []
  | i, c :: cs => (channel ++ i :: c) :: contFrames channel (i + 1) cs

/-- `preprocess_send_data(channel, command, bcnt, payload)`.
Every call site passes `bcnt = len(payload)`.  The python loop fills
`packet_list` with the first 57 payload bytes and then 59-byte slices,
pads the last slice (to 57 bytes when there is a single packet, else to
59), and prefixes the init header `channel ∥ (cmd|0x80) ∥ bcnt[2 BE]`
to slice 0 and `channel ∥ seq` to the others; the two `if` branches below
are that loop written out. -/
def preprocess_send_data (channel : Bytes) (command bcnt : Nat) (payload : Bytes) :
    List Bytes :=
  if bcnt ≤ 57 then
    [channel ++ Nat.lor command 0x80 :: (toBytes2BE bcnt ++ padTo 57 payload)]
  else
    (channel ++ Nat.lor command 0x80 :: (toBytes2BE bcnt ++ payload.take 57))
      :: contFrames channel 0 (padLast 59 (chunks59 (payload.drop 57)))

/-- `result_payload(packets)` — the benchmark-log re-decoder.  Note the
source reads continuation payloads as `packets[i][6:]` (byte offset 6),
one past the seq byte at offset 4 and the first payload byte at offset 5.
The trailing `algo` global it also returns is irrelevant here and
omitted. -/
def result_payload (packets : List Bytes) : Nat × Bytes :=
  let p0 := packets.headD []
  let command := Nat.land ((p0.drop 4).headD 0) 0x7f
  let bcnt := (p0.drop 5).headD 0 * 256 + (p0.drop 6).headD 0
  let payload := (p0.drop 7) ++ ((packets.drop 1).map (fun p => p.drop 6)).flatten
  (command, payload.take bcnt)

/-- One channel's entry of `full_data`: Python stores
`[command, bcnt, payload₀, payload₁, …]` (length `num_pack + 2`); the
payload cells are the `slots` list here (`slots[i]` = Python index
`i + 2`), `none` standing for Python's `None`. -/
structure ReasmEntry where
  cmd : Nat
  bcnt : Nat
  slots : List (Option Bytes)
  deriving DecidableEq

/-- The state updates of `process_packet` for one channel (the body after
the zero-channel re-trim; the re-trim is `fix_packet`/`process_packet_fuel`
below).  An initialization packet (byte 4 > 0x7f) allocates a fresh entry
with `num_pack` payload slots and stores `packet[7:]` at slot 0
(sequence −1 + 3 in Python).  A continuation packet stores `packet[5:]`
at slot `seq + 1`; if the channel has no entry the Python assignment
raises `KeyError`, and if the slot index is out of range it raises
`IndexError` — both are swallowed by `except: pass`, which `List.set`'s
out-of-range no-op and the `none => st` branch reproduce. -/
def insertPacket (st : Option ReasmEntry) (p : Bytes) : Option ReasmEntry :=
  let byte4 := (p.drop 4).headD 0
  if 0x7f < byte4 then
    let bcnt := (p.drop 5).headD 0 * 256 + (p.drop 6).headD 0
    some { cmd := Nat.land byte4 0x7f, bcnt := bcnt,
           slots := (List.replicate (calc_num_packets bcnt) (none : Option Bytes)).set 0
             (some (p.drop 7)) }
  else
    match st with
    | none => st
    | some e => some { e with slots := e.slots.set (byte4 + 1) (some (p.drop 5)) }

/-- What `process_transcation` observes after a packet was inserted:
missing channel entry → `KeyError` → a CTAP-HID ERROR frame (code 0x7f);
an entry still containing `None` → silent return; a complete entry →
payload concatenated, truncated to `bcnt`, and handed with the command to
`run_commands` (modelled as `delivered`). -/
inductive Outcome where
  | nothingYet
  | delivered (cmd : Nat) (payload : Bytes)
  | errorFrame (code : Nat)
  deriving DecidableEq

/-- `payload = data[2] + data[3] + …; payload[:bcnt]`. -/
def assemble (e : ReasmEntry) : Bytes :=
  ((e.slots.map (fun s => s.getD [])).flatten).take e.bcnt

/-- The dispatcher outcome as a function of the channel entry. -/
def transcationOutcome : Option ReasmEntry → Outcome
  | none => Outcome.errorFrame 0x7f
  | some e =>
      if e.slots.all Option.isSome then Outcome.delivered e.cmd (assemble e)
      else Outcome.nothingYet

/-- One `process_packet` call for a nonzero channel: insert, then run
`process_transcation` (whose effect is summarised by the outcome). -/
def processPacket (st : Option ReasmEntry) (p : Bytes) : Option ReasmEntry × Outcome :=
  let st2 := insertPacket st p
  (st2, transcationOutcome st2)

/-- Feed a list of reports of one channel through `process_packet`,
collecting the outcome of each call. -/
def runFrames (st : Option ReasmEntry) : List Bytes → Option ReasmEntry × List Outcome
  | [] => (st, [])
  | p :: ps =>
      let r := processPacket st p
      let rr := runFrames r.1 ps
      (rr.1, r.2 :: rr.2)

/-- `fix_packet(packet)`: strip leading zero bytes, right-pad with zeros
to 64 bytes. -/
def fix_packet (p : Bytes) : Bytes :=
  let q := p.dropWhile (fun b => b == 0)
  q ++ List.replicate (64 - q.length) 0

/-- The head of `process_packet`: while the first four bytes are zero it
calls `fix_packet` and re-enters itself.  The recursion is genuinely
unbounded in the source, so fuel makes it a function: `none` means the
re-entry did not reach the packet body within `fuel` steps. -/
def process_packet_fuel : Nat → Option ReasmEntry → Bytes → Option (Option ReasmEntry × Outcome)
  | 0, _, _ => none
  | n + 1, st, p =>
      if p.take 4 = [0, 0, 0, 0] then process_packet_fuel n st (fix_packet p)
      else some (processPacket st p)

/-- Termination of `process_packet` on report `p`: some amount of fuel
reaches the packet body. -/
def process_packet_terminates (st : Option ReasmEntry) (p : Bytes) : Prop :=
  ∃ n, (process_packet_fuel n st p).isSome

/-! ### Frame parsing lemmas -/

theorem drop_of_append (pre t : Bytes) (n : Nat) (h : pre.length = n) :
    (pre ++ t).drop n = t := by
  rw [← h, List.drop_left]

theorem byte4_of_append (ch : Bytes) (h : ch.length = 4) (x : Nat) (t : Bytes) :
    ((ch ++ x :: t).drop 4).headD 0 = x := by
  rw [drop_of_append ch (x :: t) 4 h]
  rfl

theorem take4_of_append (ch : Bytes) (h : ch.length = 4) (t : Bytes) :
    (ch ++ t).take 4 = ch := by
  rw [← h, List.take_left]

theorem lor_128 : ∀ c < 128, Nat.lor c 128 = c + 128 := by decide

theorem land_127 : ∀ c < 128, Nat.land (c + 128) 127 = c := by decide

theorem insertPacket_init (st : Option ReasmEntry) (ch : Bytes) (hch : ch.length = 4)
    (cmd bcnt : Nat) (hcmd : cmd < 128) (hbcnt : bcnt < 65536) (c0 : Bytes) :
    insertPacket st (ch ++ Nat.lor cmd 0x80 :: (toBytes2BE bcnt ++ c0))
      = some { cmd := cmd, bcnt := bcnt,
               slots := (List.replicate (calc_num_packets bcnt) (none : Option Bytes)).set 0
                 (some c0) } := by
  have hlor : Nat.lor cmd 0x80 = cmd + 128 := lor_128 cmd hcmd
  have hshape : ch ++ Nat.lor cmd 0x80 :: (toBytes2BE bcnt ++ c0)
      = ch ++ Nat.lor cmd 0x80 :: bcnt / 256 % 256 :: bcnt % 256 :: c0 := by
    simp [toBytes2BE]
  have h4 : ((ch ++ Nat.lor cmd 0x80 :: (toBytes2BE bcnt ++ c0)).drop 4).headD 0
      = Nat.lor cmd 0x80 := byte4_of_append ch hch _ _
  have h5 : (ch ++ Nat.lor cmd 0x80 :: (toBytes2BE bcnt ++ c0)).drop 5
      = bcnt / 256 % 256 :: bcnt % 256 :: c0 := by
    rw [hshape, show ch ++ Nat.lor cmd 0x80 :: bcnt / 256 % 256 :: bcnt % 256 :: c0
        = (ch ++ [Nat.lor cmd 0x80]) ++ (bcnt / 256 % 256 :: bcnt % 256 :: c0) by simp]
    exact drop_of_append _ _ 5 (by simp [hch])
  have h6 : (ch ++ Nat.lor cmd 0x80 :: (toBytes2BE bcnt ++ c0)).drop 6
      = bcnt % 256 :: c0 := by
    rw [hshape, show ch ++ Nat.lor cmd 0x80 :: bcnt / 256 % 256 :: bcnt % 256 :: c0
        = (ch ++ [Nat.lor cmd 0x80, bcnt / 256 % 256]) ++ (bcnt % 256 :: c0) by simp]
    exact drop_of_append _ _ 6 (by simp [hch])
  have h7 : (ch ++ Nat.lor cmd 0x80 :: (toBytes2BE bcnt ++ c0)).drop 7 = c0 := by
    rw [hshape, show ch ++ Nat.lor cmd 0x80 :: bcnt / 256 % 256 :: bcnt % 256 :: c0
        = (ch ++ [Nat.lor cmd 0x80, bcnt / 256 % 256, bcnt % 256]) ++ c0 by simp]
    exact drop_of_append _ _ 7 (by simp [hch])
  unfold insertPacket
  rw [h4, h5, h6, h7]
  rw [if_pos (by omega)]
  have hb : bcnt / 256 % 256 * 256 + bcnt % 256 = bcnt := by omega
  simp only [List.headD_cons, hb]
  have hcmdeq : Nat.land (Nat.lor cmd 0x80) 0x7f = cmd := by
    rw [hlor]
    exact land_127 cmd hcmd
  rw [hcmdeq]

theorem insertPacket_cont (e : ReasmEntry) (ch : Bytes) (hch : ch.length = 4)
    (i : Nat) (hi : i ≤ 127) (c : Bytes) :
    insertPacket (some e) (ch ++ i :: c)
      = some { e with slots := e.slots.set (i + 1) (some c) } := by
  have h5 : (ch ++ i :: c).drop 5 = c := by
    rw [show ch ++ i :: c = (ch ++ [i]) ++ c by simp]
    exact drop_of_append _ _ 5 (by simp [hch])
  unfold insertPacket
  rw [byte4_of_append ch hch i c, h5]
  rw [if_neg (by omega)]

theorem insertPacket_cont_none (ch : Bytes) (hch : ch.length = 4)
    (i : Nat) (hi : i ≤ 127) (c : Bytes) :
    insertPacket none (ch ++ i :: c) = none := by
  unfold insertPacket
  rw [byte4_of_append ch hch i c]
  rw [if_neg (by omega)]

theorem mem_contFrames (ch : Bytes) (cs : List Bytes) (i : Nat) (f : Bytes)
    (h : f ∈ contFrames ch i cs) :
    ∃ j, j < cs.length ∧ f = ch ++ (i + j) :: cs.getD j [] := by
  induction cs generalizing i with
  | nil => simp [contFrames] at h
  | cons c rest ih =>
      rw [show contFrames ch i (c :: rest)
          = (ch ++ i :: c) :: contFrames ch (i + 1) rest from rfl] at h
      rcases List.mem_cons.mp h with h | h
      · exact ⟨0, by simp, by simpa using h⟩
      · rcases ih (i + 1) h with ⟨j, hj, hf⟩
        refine ⟨j + 1, by simpa using Nat.succ_lt_succ hj, ?_⟩
        rw [hf, show i + (j + 1) = i + 1 + j by omega]
        rfl

theorem contFrames_length (ch : Bytes) (cs : List Bytes) (i : Nat) :
    (contFrames ch i cs).length = cs.length := by
  induction cs generalizing i with
  | nil => rfl
  | cons c rest ih => simp [contFrames, ih]

/-- Positional insertion of a run of continuation frames. -/
def writeChunks : Nat → List Bytes → List (Option Bytes) → List (Option Bytes)
  | _, [], slots => slots
  | i, c :: cs, slots => writeChunks (i + 1) cs (slots.set i (some c))

theorem foldl_insert_contFrames (ch : Bytes) (hch : ch.length = 4) (cs : List Bytes) :
    ∀ (i : Nat) (e : ReasmEntry), i + cs.length ≤ 128 →
    (contFrames ch i cs).foldl insertPacket (some e)
      = some { e with slots := writeChunks (i + 1) cs e.slots } := by
  induction cs with
  | nil => intro i e _; rfl
  | cons c rest ih =>
      intro i e h
      show ((ch ++ i :: c) :: contFrames ch (i + 1) rest).foldl insertPacket (some e) = _
      rw [List.foldl_cons, insertPacket_cont e ch hch i (by simp at h; omega) c,
        ih (i + 1) _ (by simp at h ⊢; omega)]
      rfl

theorem insertPacket_comm_cont (ch : Bytes) (hch : ch.length = 4)
    (i j : Nat) (hi : i ≤ 127) (hj : j ≤ 127) (ci cj : Bytes)
    (hij : i = j → ci = cj) (z : Option ReasmEntry) :
    insertPacket (insertPacket z (ch ++ i :: ci)) (ch ++ j :: cj)
      = insertPacket (insertPacket z (ch ++ j :: cj)) (ch ++ i :: ci) := by
  cases z with
  | none =>
      simp [insertPacket_cont_none ch hch i hi, insertPacket_cont_none ch hch j hj]
  | some e =>
      by_cases heq : i = j
      · rw [heq, hij heq]
      · rw [insertPacket_cont e ch hch i hi, insertPacket_cont _ ch hch j hj,
          insertPacket_cont e ch hch j hj, insertPacket_cont _ ch hch i hi]
        simp only
        rw [List.set_comm _ _ _ (by omega)]

/-- Folding the channel-state update over any permutation of a
transaction's continuation frames gives the same state: insertions go to
the slot named by the sequence byte, and distinct sequence bytes address
distinct slots. -/
theorem foldl_insert_perm (ch : Bytes) (hch : ch.length = 4) (cs : List Bytes)
    (hlen : cs.length ≤ 128) (conts : List Bytes)
    (hperm : conts.Perm (contFrames ch 0 cs)) (z : Option ReasmEntry) :
    conts.foldl insertPacket z = (contFrames ch 0 cs).foldl insertPacket z := by
  refine List.Perm.foldl_eq' hperm ?_ z
  intro x hx y hy z'
  rcases mem_contFrames ch cs 0 x (hperm.subset hx) with ⟨jx, hjx, hfx⟩
  rcases mem_contFrames ch cs 0 y (hperm.subset hy) with ⟨jy, hjy, hfy⟩
  rw [hfx, hfy]
  simp only [Nat.zero_add]
  refine insertPacket_comm_cont ch hch jx jy (by omega) (by omega) _ _ ?_ z'
  intro hj
  rw [hj]

theorem runFrames_fst (st : Option ReasmEntry) (ps : List Bytes) :
    (runFrames st ps).1 = ps.foldl insertPacket st := by
  induction ps generalizing st with
  | nil => rfl
  | cons p ps ih => simpa [runFrames, processPacket] using ih (insertPacket st p)

theorem runFrames_snd_ne_nil (st : Option ReasmEntry) (p : Bytes) (ps : List Bytes) :
    (runFrames st (p :: ps)).2 ≠ [] := by
  simp [runFrames]

theorem getLast?_cons_ne {α : Type} (a : α) (l : List α) (h : l ≠ []) :
    (a :: l).getLast? = l.getLast? := by
  cases l with
  | nil => exact absurd rfl h
  | cons b t => exact List.getLast?_cons_cons

theorem runFrames_getLast (st : Option ReasmEntry) (ps : List Bytes) (h : ps ≠ []) :
    (runFrames st ps).2.getLast?
      = some (transcationOutcome (ps.foldl insertPacket st)) := by
  induction ps generalizing st with
  | nil => exact absurd rfl h
  | cons p ps ih =>
      cases ps with
      | nil => rfl
      | cons q qs =>
          show ((processPacket st p).2 :: (runFrames (processPacket st p).1 (q :: qs)).2).getLast?
            = _
          rw [getLast?_cons_ne _ _ (runFrames_snd_ne_nil _ _ _)]
          exact ih (insertPacket st p) (by simp)

theorem transcationOutcome_ne_invalid_seq (s : Option ReasmEntry) :
    transcationOutcome s ≠ Outcome.errorFrame 0x04 := by
  cases s with
  | none => simp [transcationOutcome]
  | some e =>
      show (if e.slots.all Option.isSome then Outcome.delivered e.cmd (assemble e)
            else Outcome.nothingYet) ≠ Outcome.errorFrame 0x04
      split <;> simp

theorem runFrames_no_invalid_seq (st : Option ReasmEntry) (ps : List Bytes) :
    ∀ o ∈ (runFrames st ps).2, o ≠ Outcome.errorFrame 0x04 := by
  induction ps generalizing st with
  | nil => intro o ho; simp [runFrames] at ho
  | cons p ps ih =>
      intro o ho
      rcases List.mem_cons.mp ho with h | h
      · rw [h]
        exact transcationOutcome_ne_invalid_seq _
      · exact ih (insertPacket st p) o h

/-! ### Chunking and padding lemmas -/

theorem chunks59Fuel_flatten : ∀ (n : Nat) (l : Bytes), l.length ≤ n →
    (chunks59Fuel n l).flatten = l := by
  intro n
  induction n with
  | zero =>
      intro l h
      have : l = [] := List.eq_nil_of_length_eq_zero (by omega)
      rw [this]
      rfl
  | succ n ih =>
      intro l h
      cases l with
      | nil => rfl
      | cons b t =>
          show (((b :: t).take 59) :: chunks59Fuel n ((b :: t).drop 59)).flatten = b :: t
          rw [List.flatten_cons, ih _ (by simp at h ⊢; omega), List.take_append_drop]

theorem chunks59_flatten (l : Bytes) : (chunks59 l).flatten = l :=
  chunks59Fuel_flatten l.length l (Nat.le_refl _)

theorem chunks59Fuel_length : ∀ (n : Nat) (l : Bytes), l.length ≤ n →
    (chunks59Fuel n l).length = (l.length + 58) / 59 := by
  intro n
  induction n with
  | zero =>
      intro l h
      have : l = [] := List.eq_nil_of_length_eq_zero (by omega)
      rw [this]
      rfl
  | succ n ih =>
      intro l h
      cases l with
      | nil => rfl
      | cons b t =>
          show (((b :: t).take 59) :: chunks59Fuel n ((b :: t).drop 59)).length = _
          rw [List.length_cons, ih _ (by simp at h ⊢; omega)]
          simp only [List.length_drop, List.length_cons]
          omega

theorem chunks59_length (l : Bytes) : (chunks59 l).length = (l.length + 58) / 59 :=
  chunks59Fuel_length l.length l (Nat.le_refl _)

theorem chunks59_ne_nil (l : Bytes) (h : l ≠ []) : chunks59 l ≠ [] := by
  unfold chunks59
  cases l with
  | nil => exact absurd rfl h
  | cons b t => simp [chunks59Fuel]

theorem padLast_length (n : Nat) (cs : List Bytes) :
    (padLast n cs).length = cs.length := by
  induction cs with
  | nil => rfl
  | cons c rest ih =>
      cases rest with
      | nil => rfl
      | cons c2 cs2 => simpa [padLast] using ih

theorem padLast_flatten (n : Nat) (cs : List Bytes) :
    ∃ k, (padLast n cs).flatten = cs.flatten ++ List.replicate k 0 := by
  induction cs with
  | nil => exact ⟨0, rfl⟩
  | cons c rest ih =>
      cases rest with
      | nil => exact ⟨n - c.length, by simp [padLast, padTo]⟩
      | cons c2 cs2 =>
          rcases ih with ⟨k, hk⟩
          refine ⟨k, ?_⟩
          show (c :: padLast n (c2 :: cs2)).flatten = _
          rw [List.flatten_cons, hk]
          simp

/-! ### Frame-count arithmetic -/

theorem calc_num_packets_eq (b : Nat) :
    calc_num_packets b = 1 + (b - 57 + 58) / 59 := by
  show (if (b - 57) % 59 > 0 then 1 + (b - 57) / 59 + 1 else 1 + (b - 57) / 59)
      = 1 + (b - 57 + 58) / 59
  split <;> omega

/-! ### Slot filling -/

theorem set_append_len {α : Type} (pre : List α) (x : α) (t : List α) (v : α) :
    (pre ++ x :: t).set pre.length v = pre ++ v :: t := by
  induction pre with
  | nil => rfl
  | cons a pre ih => simpa using ih

theorem writeChunks_fill : ∀ (cs : List Bytes) (pre : List (Option Bytes)),
    writeChunks pre.length cs (pre ++ List.replicate cs.length none)
      = pre ++ cs.map some := by
  intro cs
  induction cs with
  | nil => intro pre; simp [writeChunks]
  | cons c rest ih =>
      intro pre
      show writeChunks (pre.length + 1) rest
          ((pre ++ (none : Option Bytes) :: List.replicate rest.length none).set pre.length
            (some c)) = _
      rw [set_append_len]
      have := ih (pre ++ [some c])
      simp only [List.length_append, List.length_cons, List.length_nil] at this
      simpa using this

/-! ### The receive path on an encoded transaction -/

theorem padded_chunks_length (P : Bytes) :
    (padLast 59 (chunks59 (P.drop 57))).length = (P.length - 57 + 58) / 59 := by
  rw [padLast_length, chunks59_length]
  simp

theorem padded_chunks_le_128 (P : Bytes) (hP : P.length ≤ 7609) :
    (padLast 59 (chunks59 (P.drop 57))).length ≤ 128 := by
  rw [padded_chunks_length]
  calc (P.length - 57 + 58) / 59 ≤ 7610 / 59 := Nat.div_le_div_right (by omega)
  _ = 128 := by norm_num

theorem encode_cons (ch : Bytes) (cmd : Nat) (P : Bytes) (h57 : 57 < P.length) :
    preprocess_send_data ch cmd P.length P
      = (ch ++ Nat.lor cmd 0x80 :: (toBytes2BE P.length ++ P.take 57))
          :: contFrames ch 0 (padLast 59 (chunks59 (P.drop 57))) := by
  unfold preprocess_send_data
  rw [if_neg (by omega)]

/-- Folding an encoded transaction's frames (in order) through the receive
path ends in a complete channel entry holding the command, the byte
count, and every payload slot. -/
theorem encode_foldl (ch : Bytes) (cmd : Nat) (P : Bytes)
    (hch : ch.length = 4) (hcmd : cmd < 128) (h57 : 57 < P.length)
    (hP : P.length ≤ 7609) :
    (preprocess_send_data ch cmd P.length P).foldl insertPacket none
      = some { cmd := cmd, bcnt := P.length,
               slots := some (P.take 57)
                 :: (padLast 59 (chunks59 (P.drop 57))).map some } := by
  have hnp : calc_num_packets P.length
      = 1 + (padLast 59 (chunks59 (P.drop 57))).length := by
    rw [calc_num_packets_eq, padded_chunks_length]
  rw [encode_cons ch cmd P h57, List.foldl_cons,
    insertPacket_init none ch hch cmd P.length hcmd (by omega) (P.take 57),
    foldl_insert_contFrames ch hch _ 0 _ (by simpa using padded_chunks_le_128 P hP)]
  simp only [Option.some.injEq, ReasmEntry.mk.injEq, true_and]
  rw [hnp, show 1 + (padLast 59 (chunks59 (P.drop 57))).length
      = (padLast 59 (chunks59 (P.drop 57))).length + 1 by omega,
    List.replicate_succ]
  show writeChunks (0 + 1) (padLast 59 (chunks59 (P.drop 57)))
      ([some (P.take 57)]
        ++ List.replicate (padLast 59 (chunks59 (P.drop 57))).length none) = _
  have := writeChunks_fill (padLast 59 (chunks59 (P.drop 57))) [some (P.take 57)]
  simpa using this

/-- The dispatcher outcome at the end of an in-order encoded transaction:
the command and the payload round-trip. -/
theorem transcationOutcome_complete (e : ReasmEntry)
    (h : e.slots.all Option.isSome = true) :
    transcationOutcome (some e) = Outcome.delivered e.cmd (assemble e) := by
  show (if e.slots.all Option.isSome then Outcome.delivered e.cmd (assemble e)
        else Outcome.nothingYet) = _
  rw [if_pos h]

theorem encode_outcome (ch : Bytes) (cmd : Nat) (P : Bytes)
    (hch : ch.length = 4) (hcmd : cmd < 128) (h57 : 57 < P.length)
    (hP : P.length ≤ 7609) :
    transcationOutcome ((preprocess_send_data ch cmd P.length P).foldl insertPacket none)
      = Outcome.delivered cmd P := by
  rw [encode_foldl ch cmd P hch hcmd h57 hP]
  have hass : assemble { cmd := cmd, bcnt := P.length,
                         slots := some (P.take 57)
                           :: (padLast 59 (chunks59 (P.drop 57))).map some } = P := by
    unfold assemble
    rcases padLast_flatten 59 (chunks59 (P.drop 57)) with ⟨k, hk⟩
    have hmap : ((some (P.take 57) :: (padLast 59 (chunks59 (P.drop 57))).map some).map
        (fun s => s.getD ([] : Bytes)))
        = P.take 57 :: padLast 59 (chunks59 (P.drop 57)) := by
      simp only [List.map_cons, Option.getD_some, List.map_map]
      rw [show ((fun s => s.getD ([] : Bytes)) ∘ some) = id from rfl, List.map_id]
    rw [hmap, List.flatten_cons, hk, chunks59_flatten, ← List.append_assoc,
      List.take_append_drop]
    exact List.take_left P _
  rw [transcationOutcome_complete _ (by simp), hass]

/-! ### Claim C7: framing roundtrip -/

/-- C7 counterexample: for the 59-byte payload `0,1,…,58` on channel
`00000001`, the re-decoder `result_payload` recovers the command but NOT
the payload — it reads continuation payloads from byte offset 6 instead
of 5 and so drops the first payload byte of the continuation frame. -/
theorem C7_result_payload_mismatch :
    (result_payload (preprocess_send_data [0, 0, 0, 1] 0x10 59 (List.range 59))).1 = 0x10 ∧
    (result_payload (preprocess_send_data [0, 0, 0, 1] 0x10 59 (List.range 59))).2
      ≠ List.range 59 := by
  decide

/-- C7 (amended): for every payload of at most 7609 bytes, every 4-byte
nonbroadcast channel and every 7-bit command, `preprocess_send_data`
emits exactly `1 + ⌈max(0,|P|−57)/59⌉` frames, every frame carries the
channel in its first four bytes, and the RECEIVE path (`process_packet` /
`process_transcation`) decodes the frames back to `(cmd, P)` and hands
them to the dispatcher; the decoder that fails the roundtrip is only the
benchmark re-decoder `result_payload`. -/
theorem C7_framing_roundtrip (ch : Bytes) (cmd : Nat) (P : Bytes)
    (hch : ch.length = 4) (hcmd : cmd < 128) (hP : P.length ≤ 7609) :
    (preprocess_send_data ch cmd P.length P).length = 1 + (P.length - 57 + 58) / 59 ∧
    (∀ f ∈ preprocess_send_data ch cmd P.length P, f.take 4 = ch) ∧
    (runFrames none (preprocess_send_data ch cmd P.length P)).2.getLast?
      = some (Outcome.delivered cmd P) := by
  by_cases h57 : P.length ≤ 57
  · have henc : preprocess_send_data ch cmd P.length P
        = [ch ++ Nat.lor cmd 0x80 :: (toBytes2BE P.length ++ padTo 57 P)] := by
      unfold preprocess_send_data
      rw [if_pos h57]
    have hnp1 : calc_num_packets P.length = 1 := by
      rw [calc_num_packets_eq]
      omega
    refine ⟨by rw [henc]; simp; omega, ?_, ?_⟩
    · intro f hf
      rw [henc] at hf
      rcases List.mem_singleton.mp hf with rfl
      exact take4_of_append ch hch _
    · rw [henc]
      show [transcationOutcome (insertPacket none
        (ch ++ Nat.lor cmd 0x80 :: (toBytes2BE P.length ++ padTo 57 P)))].getLast? = _
      rw [insertPacket_init none ch hch cmd P.length hcmd (by omega) (padTo 57 P), hnp1]
      show some (transcationOutcome (some { cmd := cmd, bcnt := P.length,
                                            slots := [some (padTo 57 P)] })) = _
      have hass : assemble { cmd := cmd, bcnt := P.length,
                             slots := [some (padTo 57 P)] } = P := by
        unfold assemble padTo
        simp only [List.map_cons, Option.getD_some, List.map_nil, List.flatten_cons,
          List.flatten_nil, List.append_nil]
        exact List.take_left P _
      rw [transcationOutcome_complete _ (by simp), hass]
  · push_neg at h57
    refine ⟨?_, ?_, ?_⟩
    · rw [encode_cons ch cmd P h57]
      simp only [List.length_cons, contFrames_length, padded_chunks_length]
      omega
    · intro f hf
      rw [encode_cons ch cmd P h57] at hf
      rcases List.mem_cons.mp hf with rfl | hf
      · exact take4_of_append ch hch _
      · rcases mem_contFrames ch _ 0 f hf with ⟨j, _, rfl⟩
        exact take4_of_append ch hch _
    · rw [runFrames_getLast none _ (by rw [encode_cons ch cmd P h57]; simp),
        encode_outcome ch cmd P hch hcmd h57 hP]

/-- C7 witness: the amended roundtrip at a concrete three-frame
transaction. -/
theorem C7_framing_roundtrip_witness :
    ([0, 0, 0, 1] : Bytes).length = 4 ∧ (0x10 : Nat) < 128 ∧ (List.range 117).length ≤ 7609 ∧
    ((preprocess_send_data [0, 0, 0, 1] 0x10 (List.range 117).length (List.range 117)).length
      = 1 + ((List.range 117).length - 57 + 58) / 59 ∧
    (∀ f ∈ preprocess_send_data [0, 0, 0, 1] 0x10 (List.range 117).length (List.range 117),
      f.take 4 = [0, 0, 0, 1]) ∧
    (runFrames none (preprocess_send_data [0, 0, 0, 1] 0x10 (List.range 117).length
        (List.range 117))).2.getLast?
      = some (Outcome.delivered 0x10 (List.range 117))) :=
  ⟨by decide, by decide, by decide,
    C7_framing_roundtrip [0, 0, 0, 1] 0x10 (List.range 117) (by decide) (by decide) (by decide)⟩

/-! ### Claim C6: out-of-order continuation frames -/

/-- C6 counterexample: inject the two continuation frames of a 117-byte
transaction in swapped order.  No `0x04` (ERR_INVALID_SEQ) frame — indeed
no error at all — is produced, and the third report completes the
transaction, delivering the full payload to the dispatcher. -/
theorem C6_out_of_order_counterexample :
    (runFrames none
        [(preprocess_send_data [0, 0, 0, 1] 0x10 117 (List.range 117)).getD 0 [],
         (preprocess_send_data [0, 0, 0, 1] 0x10 117 (List.range 117)).getD 2 [],
         (preprocess_send_data [0, 0, 0, 1] 0x10 117 (List.range 117)).getD 1 []]).2
      = [Outcome.nothingYet, Outcome.nothingYet,
         Outcome.delivered 0x10 (List.range 117)] := by
  decide

/-- C6 (amended): continuation frames are inserted at the slot named by
their sequence byte, so the receive path tolerates any arrival order: for
any permutation of a transaction's continuation frames the channel state
ends exactly as for in-order arrival, the last processed frame delivers
`(cmd, P)` to the dispatcher, and no step ever emits `0x04`
(ERR_INVALID_SEQ) — the receive path has no such error path at all. -/
theorem C6_out_of_order_same_delivery (ch : Bytes) (cmd : Nat) (P : Bytes)
    (conts : List Bytes) (hch : ch.length = 4) (hcmd : cmd < 128)
    (h57 : 57 < P.length) (hP : P.length ≤ 7609)
    (hperm : conts.Perm ((preprocess_send_data ch cmd P.length P).drop 1)) :
    (runFrames none ((preprocess_send_data ch cmd P.length P).take 1 ++ conts)).1
      = (runFrames none (preprocess_send_data ch cmd P.length P)).1 ∧
    (runFrames none ((preprocess_send_data ch cmd P.length P).take 1 ++ conts)).2.getLast?
      = some (Outcome.delivered cmd P) ∧
    (∀ o ∈ (runFrames none ((preprocess_send_data ch cmd P.length P).take 1 ++ conts)).2,
      o ≠ Outcome.errorFrame 0x04) := by
  have henc := encode_cons ch cmd P h57
  have hperm2 : conts.Perm (contFrames ch 0 (padLast 59 (chunks59 (P.drop 57)))) := by
    rw [henc] at hperm
    exact hperm
  have htake : (preprocess_send_data ch cmd P.length P).take 1
      = [ch ++ Nat.lor cmd 0x80 :: (toBytes2BE P.length ++ P.take 57)] := by
    rw [henc]
    rfl
  have hfold : ((preprocess_send_data ch cmd P.length P).take 1 ++ conts).foldl
        insertPacket none
      = (preprocess_send_data ch cmd P.length P).foldl insertPacket none := by
    rw [htake, henc]
    simp only [List.foldl_append, List.foldl_cons, List.foldl_nil]
    exact foldl_insert_perm ch hch _ (padded_chunks_le_128 P hP) conts hperm2 _
  refine ⟨?_, ?_, ?_⟩
  · rw [runFrames_fst, runFrames_fst, hfold]
  · rw [runFrames_getLast none _ (by rw [htake]; simp), hfold,
      encode_outcome ch cmd P hch hcmd h57 hP]
  · exact runFrames_no_invalid_seq none _

/-- C6 witness: the amended statement at a concrete swapped arrival
order. -/
theorem C6_out_of_order_same_delivery_witness :
    ([(preprocess_send_data [0, 0, 0, 1] 0x10 (List.range 117).length (List.range 117)).getD 2 [],
      (preprocess_send_data [0, 0, 0, 1] 0x10 (List.range 117).length (List.range 117)).getD 1 []].Perm
      ((preprocess_send_data [0, 0, 0, 1] 0x10 (List.range 117).length (List.range 117)).drop 1)) ∧
    (runFrames none ((preprocess_send_data [0, 0, 0, 1] 0x10 (List.range 117).length
          (List.range 117)).take 1
        ++ [(preprocess_send_data [0, 0, 0, 1] 0x10 (List.range 117).length (List.range 117)).getD 2 [],
            (preprocess_send_data [0, 0, 0, 1] 0x10 (List.range 117).length (List.range 117)).getD 1 []])).2.getLast?
      = some (Outcome.delivered 0x10 (List.range 117)) :=
  ⟨by decide,
    (C6_out_of_order_same_delivery [0, 0, 0, 1] 0x10 (List.range 117) _
      (by decide) (by decide) (by decide) (by decide) (by decide)).2.1⟩

/-! ### Claim C10: termination of the zero-channel re-trim -/

/-- The all-zero 64-byte report. -/
def zeroReport : Bytes := List.replicate 64 0

theorem process_packet_fuel_zero_none : ∀ (n : Nat) (st : Option ReasmEntry),
    process_packet_fuel n st zeroReport = none := by
  intro n
  induction n with
  | zero => intro st; rfl
  | succ n ih =>
      intro st
      have h4 : zeroReport.take 4 = [0, 0, 0, 0] := by decide
      have hfix : fix_packet zeroReport = zeroReport := by decide
      simp [process_packet_fuel, h4, hfix, ih]

/-- C10 counterexample: on the all-zero report, `fix_packet` is a
fixpoint, so `process_packet` re-enters itself forever — no amount of
fuel reaches the packet body (in CPython: unbounded recursion until
`RecursionError`). -/
theorem C10_all_zero_report_loops :
    ¬ process_packet_terminates none zeroReport := by
  intro h
  rcases h with ⟨n, hn⟩
  rw [process_packet_fuel_zero_none n none] at hn
  simp at hn

theorem dropWhile_head_ne_zero (l : Bytes) (b : Nat) (t : Bytes)
    (h : l.dropWhile (fun x => x == 0) = b :: t) : (b == 0) = false := by
  induction l with
  | nil => simp [List.dropWhile] at h
  | cons a l ih =>
      rw [List.dropWhile_cons] at h
      by_cases ha : (a == 0) = true
      · rw [if_pos ha] at h
        exact ih h
      · rw [if_neg ha] at h
        injection h with h1 _
        rw [← h1]
        simpa using ha

theorem process_packet_fuel_body (n : Nat) (st : Option ReasmEntry) (p : Bytes)
    (h : p.take 4 ≠ [0, 0, 0, 0]) :
    process_packet_fuel (n + 1) st p = some (processPacket st p) := by
  simp [process_packet_fuel, h]

/-- C10 (amended): every 64-byte report other than the all-zero one is
processed with at most one application of the leading-zero re-trim: the
re-trimmed packet starts with a nonzero byte, so its channel field is not
all-zero and the packet body is reached (fuel 2 suffices). -/
theorem C10_nonzero_report_terminates (st : Option ReasmEntry) (p : Bytes)
    (hlen : p.length = 64) (hne : p ≠ List.replicate 64 0) :
    (process_packet_fuel 2 st p).isSome = true := by
  by_cases h0 : p.take 4 = [0, 0, 0, 0]
  · have hq : ∃ b t, p.dropWhile (fun x => x == 0) = b :: t ∧ (b == 0) = false := by
      rcases hdw : p.dropWhile (fun x => x == 0) with _ | ⟨b, t⟩
      · exfalso
        apply hne
        have hall := List.dropWhile_eq_nil_iff.mp hdw
        refine List.eq_replicate_iff.mpr ⟨hlen, ?_⟩
        intro x hx
        simpa using hall x hx
      · exact ⟨b, t, rfl, dropWhile_head_ne_zero p b t hdw⟩
    rcases hq with ⟨b, t, hbt, hb⟩
    have hfix : (fix_packet p).take 4 ≠ [0, 0, 0, 0] := by
      unfold fix_packet
      rw [hbt]
      show ((b :: (t ++ List.replicate (64 - (b :: t).length) 0)).take 4) ≠ _
      rw [List.take_succ_cons]
      intro hcontra
      injection hcontra with h1 _
      rw [h1] at hb
      simp at hb
    rw [show process_packet_fuel 2 st p = process_packet_fuel 1 st (fix_packet p) from by
      simp [process_packet_fuel, h0]]
    rw [process_packet_fuel_body 0 st _ hfix]
    rfl
  · rw [process_packet_fuel_body 1 st p h0]
    rfl

/-- C10 witness: a concrete nonzero report terminates with fuel 2. -/
theorem C10_nonzero_report_terminates_witness :
    (List.replicate 64 1 : Bytes).length = 64 ∧
    (List.replicate 64 1 : Bytes) ≠ List.replicate 64 0 ∧
    (process_packet_fuel 2 none (List.replicate 64 1)).isSome = true :=
  ⟨by decide, by decide,
    C10_nonzero_report_terminates none (List.replicate 64 1) (by decide) (by decide)⟩

end SecurityKey
